import Mathlib

/-!
Shallow embedding of the Prowling terminal client (src/index.js and the
unnamed source file src/unnamed/part_000, which is a richer revision of the
same program).  The embedding covers the parts of the program the
specification's testable properties talk about: the in-memory result
sorting / filtering / navigation logic of startSearchLoop, loadConfig,
the axios paramsSerializer, and the formatSize helper.

Modelling conventions:
* JavaScript strings are Lean Strings; the host primitives the code calls
  (toLowerCase, trim, includes, localeCompare) are re-implemented over
  String.data below, with ASCII case folding and code-point collation as
  the idealisation of the locale-dependent host behaviour.
* A JS number field that may be absent or null is an Option.
* new Date(x): the observable outcome of the host date parser is encoded in
  the publishDate field itself: none stands for an absent/falsy value
  (the code turns it into new Date(0), epoch 0), some none for a present
  but unparseable string (an Invalid Date, timestamp NaN), and
  some (some t) for a string parsing to timestamp t.
* Array.prototype.sort with a comparator cmp is modelled as the stable
  merge sort with the relation fun a b => cmp a b ≤ 0; since ES2019 the
  host sort is required to be stable, and per the ES abstract operation
  CompareArrayElements a NaN comparator result is treated as +0, which is
  why the date comparators below collapse NaN to 0.
-/

namespace Prowling

/-- Model of JavaScript String.prototype.toLowerCase restricted to ASCII
case folding (Char.toLower lowers exactly the letters A-Z). -/
def jsToLowerCase (s : String) : String := ⟨s.data.map Char.toLower⟩

/-- Model of JavaScript String.prototype.trim: drop leading and trailing
whitespace characters. -/
def jsTrim (s : String) : String :=
  ⟨((s.data.dropWhile Char.isWhitespace).reverse.dropWhile Char.isWhitespace).reverse⟩

/-- Does the character list start with the given needle? (helper for the
model of String.prototype.includes). -/
def startsWithChars : List Char → List Char → Bool
  | _, [] => true
  | [], _ :: _ => false
  | c :: cs, d :: ds => c == d && startsWithChars cs ds

/-- Does the character list contain the needle as a contiguous run?
(model of String.prototype.includes over the underlying characters). -/
def includesChars : List Char → List Char → Bool
  | _, [] => true
  | [], _ :: _ => false
  | c :: cs, d :: ds => startsWithChars (c :: cs) (d :: ds) || includesChars cs (d :: ds)

/-- Model of JavaScript String.prototype.includes. -/
def jsIncludes (hay needle : String) : Bool := includesChars hay.data needle.data

/-- Lexicographic three-way comparison on character lists, by code point,
returning -1, 0 or 1. -/
def lexCmpInt : List Char → List Char → Int
  | [], [] => 0
  | [], _ :: _ => -1
  | _ :: _, [] => 1
  | a :: as, b :: bs =>
    if a.toNat < b.toNat then -1
    else if b.toNat < a.toNat then 1
    else lexCmpInt as bs

/-- Model of String.prototype.localeCompare: only the sign is relevant to
the sort; the locale collation is idealised as code-point order. -/
def localeCompare (a b : String) : Int := lexCmpInt a.data b.data

/-- An indexer record as used by the sort: id, name, priority
(GET /api/v1/indexer). -/
structure Indexer where
  id : Int
  name : String
  priority : Int
  deriving DecidableEq

/-- A search result record (the fields of the raw JSON the program reads).
publishDate encodes the outcome of new Date as explained in the header. -/
structure SearchResult where
  title : String
  indexer : String
  size : Option Nat
  seeders : Option Nat
  leechers : Option Nat
  protocol : String
  publishDate : Option (Option Int)
  downloadUrl : Option String
  magnetUrl : Option String
  deriving DecidableEq

/-- Timestamp of new Date(r.publishDate || 0): an absent/falsy field gives
epoch 0, an unparseable string gives NaN (encoded none), a parseable
string gives its timestamp. -/
def dateValue (r : SearchResult) : Option Int :=
  match r.publishDate with
  | none => some 0
  | some none => none
  | some (some t) => some t

/-- this.indexers.find(i => i.name === name)?.priority || 0. -/
def indexerPriority (indexers : List Indexer) (name : String) : Int :=
  match indexers.find? (fun i => i.name == name) with
  | some i => i.priority
  | none => 0

/-- The sort keys offered by the results menu of the unnamed source file
(src/index.js offers the first eight of them). -/
inductive SortKey where
  | title_asc | title_desc
  | seeders_desc | seeders_asc
  | size_desc | size_asc
  | date_desc | date_asc
  | protocol
  | indexer_priority_desc | indexer_priority_asc
  deriving DecidableEq

/-- The comparator of the sort branch of startSearchLoop, as the sort sees
it: the value of the JS comparator for the given key, with a NaN result of
the date subtraction collapsed to 0 (the ES CompareArrayElements rule). -/
def sortCompare (indexers : List Indexer) (k : SortKey) (a b : SearchResult) : Int :=
  match k with
  | .title_asc => localeCompare a.title b.title
  | .title_desc => localeCompare b.title a.title
  | .seeders_desc => (b.seeders.getD 0 : Int) - (a.seeders.getD 0 : Int)
  | .seeders_asc => (a.seeders.getD 0 : Int) - (b.seeders.getD 0 : Int)
  | .size_desc => (b.size.getD 0 : Int) - (a.size.getD 0 : Int)
  | .size_asc => (a.size.getD 0 : Int) - (b.size.getD 0 : Int)
  | .date_desc =>
    match dateValue b, dateValue a with
    | some x, some y => x - y
    | _, _ => 0
  | .date_asc =>
    match dateValue a, dateValue b with
    | some x, some y => x - y
    | _, _ => 0
  | .protocol =>
    if a.protocol = "usenet" ∧ b.protocol ≠ "usenet" then -1
    else if a.protocol ≠ "usenet" ∧ b.protocol = "usenet" then 1
    else 0
  | .indexer_priority_desc =>
    indexerPriority indexers b.indexer - indexerPriority indexers a.indexer
  | .indexer_priority_asc =>
    indexerPriority indexers a.indexer - indexerPriority indexers b.indexer

/-- The non-strict order induced by the comparator, used by the stable
sort model. -/
def sortLe (indexers : List Indexer) (k : SortKey) (a b : SearchResult) : Bool :=
  decide (sortCompare indexers k a b ≤ 0)

/-- Model of [...currentResults].sort(comparator): a stable merge sort of a
copy of the sequence (the spread makes the JS sort act on a fresh array, so
the input sequence itself is never mutated).  For a consistent comparator,
stability makes this the unique order every conforming engine must produce.
Where the comparator is inconsistent — the date keys on a result whose
publishDate does not parse — the ES specification makes the resulting order
implementation-defined, and the merge sort is one admissible resolution; on
such inputs only outputs that the actual engine also produces are asserted
by the theorems below. -/
def sortResults (indexers : List Indexer) (k : SortKey) (rs : List SearchResult) :
    List SearchResult :=
  rs.mergeSort (sortLe indexers k)

/-- Model of the search-within-results computation:
results.filter(r => r.title.toLowerCase().includes(searchQuery.toLowerCase())). -/
def filterResults (results : List SearchResult) (searchQuery : String) :
    List SearchResult :=
  results.filter fun r => jsIncludes (jsToLowerCase r.title) (jsToLowerCase searchQuery)

/-- The mutable local state of the results view of startSearchLoop:
the full sequence results (never reassigned), the displayed sequence
currentResults, the filteredResults variable, the isFiltered flag, and the
navigation stack of full-results snapshots pushed on item selection. -/
structure ResultsState where
  results : List SearchResult
  currentResults : List SearchResult
  filteredResults : Option (List SearchResult)
  isFiltered : Bool
  navStack : List (List SearchResult)
  deriving DecidableEq

/-- The operations of the results view loop that touch the modelled state:
sorting, search-within-results, show-all, selecting an item (which pushes a
snapshot of the full sequence before entering the detail view; returning
from the detail view with back changes none of these variables), and
back-to-main-menu from the detail view (which clears the stack). -/
inductive ResultsOp where
  | sort (k : SortKey)
  | search (q : String)
  | showAll
  | selectItem
  | backToMain
  deriving DecidableEq

/-- State at entry of the results view loop: currentResults = results,
no filter active, empty navigation stack. -/
def initResultsState (results : List SearchResult) : ResultsState :=
  ⟨results, results, none, false, []⟩

/-- One iteration of the results view loop of startSearchLoop, restricted
to its effect on the modelled state.  In the search branch the code first
checks searchQuery.trim() for truthiness, then filters the original full
sequence; an empty match set only prints a message (the filteredResults
variable has already been assigned) and leaves the view unchanged. -/
def resultsStep (indexers : List Indexer) (s : ResultsState) : ResultsOp → ResultsState
  | .sort k => { s with currentResults := sortResults indexers k s.currentResults }
  | .search q =>
    if jsTrim q ≠ "" then
      let f := filterResults s.results q
      if f = [] then { s with filteredResults := some f }
      else { s with currentResults := f, filteredResults := some f, isFiltered := true }
    else s
  | .showAll => { s with currentResults := s.results, filteredResults := none, isFiltered := false }
  | .selectItem => { s with navStack := s.results :: s.navStack }
  | .backToMain => { s with navStack := [] }

/-- The unit table of formatSize; reading it past the end models the JS
out-of-bounds array read sizes[i], which yields undefined and renders as
the string "undefined" inside the template literal. -/
def sizesArr : List String := ["B", "KB", "MB", "GB", "TB"]

/-- Fuel-driven floor of the base-1024 logarithm (helper, fuel n suffices
for input n). -/
def floorLog1024Aux : Nat → Nat → Nat
  | 0, _ => 0
  | fuel + 1, n => if n < 1024 then 0 else floorLog1024Aux fuel (n / 1024) + 1

/-- Exact floor of the base-1024 logarithm of a positive integer. -/
def floorLog1024 (n : Nat) : Nat := floorLog1024Aux n n

/-- Unit index computed by Math.floor(Math.log(bytes) / Math.log(1024)) in
IEEE double arithmetic, on the range of sizes the theorems below quantify
over (bytes ≤ 1024^5).  The rounded double quotient agrees with the exact
floor base-1024 logarithm everywhere on that range except within three
units below 1024^5: at bytes = 1024^5 - 3, -2, -1 the true ratio is within
half an ulp of 5.0, so the quotient (with fdlibm's log as well as with a
correctly rounded log) is already exactly 5.0 and the floor is 5.  Above
1024^5 nothing is asserted and the exact floor logarithm stands in. -/
def mathLogIndex (b : Nat) : Nat :=
  if 1024 ^ 5 - 3 ≤ b ∧ b ≤ 1024 ^ 5 then 5 else floorLog1024 b

/-- Exact-arithmetic idealisation of (num / den).toFixed(2): round the
rational num / den half-up to two decimal places and render it with
exactly two fraction digits. -/
def toFixed2 (num den : Nat) : String :=
  let n := (200 * num + den) / (2 * den)
  toString (n / 100) ++ "." ++ (if n % 100 < 10 then "0" else "") ++ toString (n % 100)

/-- formatSize of startSearchLoop: a falsy size (absent, null or 0) gives
"Unknown"; otherwise the value is scaled by the unit index
Math.floor(Math.log(bytes)/Math.log(1024)) — modelled by mathLogIndex,
which reproduces the IEEE double rounding at the 1024^5 boundary — and
rendered with two decimals by the toFixed(2) idealisation. -/
def formatSize (bytes : Option Nat) : String :=
  match bytes with
  | none => "Unknown"
  | some b =>
    if b = 0 then "Unknown"
    else
      let i := mathLogIndex b
      toFixed2 b (1024 ^ i) ++ " " ++ sizesArr.getD i "undefined"

/-- The theme mapping (7 named roles to colour identifiers). -/
structure Theme where
  primary : String
  secondary : String
  success : String
  error : String
  warning : String
  info : String
  highlight : String
  deriving DecidableEq

/-- The default theme set in the constructor. -/
def defaultTheme : Theme :=
  ⟨"cyan", "yellow", "green", "red", "yellow", "blue", "magenta"⟩

/-- The UI settings mapping. -/
structure Settings where
  pageSize : Nat
  defaultSortOrder : String
  defaultDownloadDir : String
  showAdultContent : Bool
  showExtendedInfo : Bool
  confirmDownloads : Bool
  autoRefreshResults : Bool
  resultsPerPage : Nat
  displayDensity : String
  enableNotifications : Bool
  notificationSound : Bool
  enableKeyboardShortcuts : Bool
  autoSaveSearchHistory : Bool
  maxSearchHistory : Nat
  enableAnimations : Bool
  displayMode : String
  cacheResults : Bool
  cacheDuration : Nat
  deriving DecidableEq

/-- The default UI settings set in the constructor. -/
def defaultSettings : Settings :=
  ⟨15, "seeders_desc", "", true, false, true, false, 30, "normal", true, true,
    true, true, 20, true, "auto", true, 30⟩

/-- A theme object as it may occur in the saved JSON file: every role
optional (the spread merge only overrides roles that are present). -/
structure PartialTheme where
  primary : Option String := none
  secondary : Option String := none
  success : Option String := none
  error : Option String := none
  warning : Option String := none
  info : Option String := none
  highlight : Option String := none
  deriving DecidableEq

/-- A settings object as it may occur in the saved JSON file. -/
structure PartialSettings where
  pageSize : Option Nat := none
  defaultSortOrder : Option String := none
  defaultDownloadDir : Option String := none
  showAdultContent : Option Bool := none
  showExtendedInfo : Option Bool := none
  confirmDownloads : Option Bool := none
  autoRefreshResults : Option Bool := none
  resultsPerPage : Option Nat := none
  displayDensity : Option String := none
  enableNotifications : Option Bool := none
  notificationSound : Option Bool := none
  enableKeyboardShortcuts : Option Bool := none
  autoSaveSearchHistory : Option Bool := none
  maxSearchHistory : Option Nat := none
  enableAnimations : Option Bool := none
  displayMode : Option String := none
  cacheResults : Option Bool := none
  cacheDuration : Option Nat := none
  deriving DecidableEq

/-- Shallow merge of a saved theme over the current one:
this.theme = { ...this.theme, ...config.theme }. -/
def mergeTheme (cur : Theme) (p : PartialTheme) : Theme :=
  ⟨p.primary.getD cur.primary, p.secondary.getD cur.secondary,
    p.success.getD cur.success, p.error.getD cur.error,
    p.warning.getD cur.warning, p.info.getD cur.info,
    p.highlight.getD cur.highlight⟩

/-- Shallow merge of saved settings over the current ones:
this.settings = { ...this.settings, ...config.settings }. -/
def mergeSettings (cur : Settings) (p : PartialSettings) : Settings :=
  ⟨p.pageSize.getD cur.pageSize, p.defaultSortOrder.getD cur.defaultSortOrder,
    p.defaultDownloadDir.getD cur.defaultDownloadDir,
    p.showAdultContent.getD cur.showAdultContent,
    p.showExtendedInfo.getD cur.showExtendedInfo,
    p.confirmDownloads.getD cur.confirmDownloads,
    p.autoRefreshResults.getD cur.autoRefreshResults,
    p.resultsPerPage.getD cur.resultsPerPage,
    p.displayDensity.getD cur.displayDensity,
    p.enableNotifications.getD cur.enableNotifications,
    p.notificationSound.getD cur.notificationSound,
    p.enableKeyboardShortcuts.getD cur.enableKeyboardShortcuts,
    p.autoSaveSearchHistory.getD cur.autoSaveSearchHistory,
    p.maxSearchHistory.getD cur.maxSearchHistory,
    p.enableAnimations.getD cur.enableAnimations,
    p.displayMode.getD cur.displayMode,
    p.cacheResults.getD cur.cacheResults,
    p.cacheDuration.getD cur.cacheDuration⟩

/-- The parsed JSON object of an existing, well-formed config file; every
key may be absent. -/
structure SavedConfig where
  serverUrl : Option String := none
  apiKey : Option String := none
  qbittorrentUrl : Option String := none
  theme : Option PartialTheme := none
  settings : Option PartialSettings := none
  deriving DecidableEq

/-- The fully-populated default config object loadConfig builds on its
fallback path. -/
structure Config where
  serverUrl : String
  apiKey : String
  qbittorrentUrl : String
  theme : Theme
  settings : Settings
  deriving DecidableEq

/-- Observable state of the config file on disk: absent
(fs.existsSync false), present but unparseable (JSON.parse throws, caught
by the try/catch), or present and parsed. -/
inductive ConfigFile where
  | missing
  | malformed
  | parsed (c : SavedConfig)
  deriving DecidableEq

/-- The value loadConfig returns: either the raw parsed object, or the
default object built from the in-memory theme and settings. -/
inductive ConfigReturn where
  | raw (c : SavedConfig)
  | defaultObj (c : Config)
  deriving DecidableEq

/-- Result of a loadConfig call: the returned value together with the
in-memory theme and settings after the merge step. -/
structure LoadOutcome where
  ret : ConfigReturn
  theme : Theme
  settings : Settings
  deriving DecidableEq

/-- loadConfig of the unnamed source file.  curTheme and curSettings are
this.theme and this.settings at call time (the constructor defaults on the
start-up call).  A missing file skips the parse; a malformed file throws
inside the try before any merge, and the catch prints a warning; both
paths fall through to the same default-object return, so the function
never throws. -/
def loadConfig (curTheme : Theme) (curSettings : Settings) :
    ConfigFile → LoadOutcome
  | .missing =>
    ⟨.defaultObj ⟨"", "", "", curTheme, curSettings⟩, curTheme, curSettings⟩
  | .malformed =>
    ⟨.defaultObj ⟨"", "", "", curTheme, curSettings⟩, curTheme, curSettings⟩
  | .parsed c =>
    let th := match c.theme with
      | some pt => mergeTheme curTheme pt
      | none => curTheme
    let st := match c.settings with
      | some ps => mergeSettings curSettings ps
      | none => curSettings
    ⟨.raw c, th, st⟩

/-- A query parameter value: an array of already-stringified elements, or
a scalar string. -/
inductive ParamValue where
  | arr (vs : List String)
  | scalar (v : String)
  deriving DecidableEq

/-- Characters encodeURIComponent leaves unescaped: letters, digits and
- _ . ! ~ * ( ) and the apostrophe (code point 39). -/
def uriUnreservedChar (c : Char) : Bool :=
  c.isAlphanum || c ∈ ['-', '_', '.', '!', '~', '*', '(', ')'] || c.toNat = 39

/-- Uppercase hexadecimal digit for a value below 16. -/
def hexDigit (n : Nat) : Char :=
  if n < 10 then Char.ofNat (48 + n) else Char.ofNat (55 + n)

/-- Percent-encoding of one byte. -/
def percentEncodeByte (b : UInt8) : List Char :=
  ['%', hexDigit (b.toNat / 16), hexDigit (b.toNat % 16)]

/-- Model of the host encodeURIComponent: unreserved characters are kept,
every other character is replaced by the percent-encoding of its UTF-8
bytes. -/
def encodeURIComponent (s : String) : String :=
  ⟨s.data.flatMap fun c =>
    if uriUnreservedChar c then [c]
    else (String.toUTF8 ⟨[c]⟩).toList.flatMap percentEncodeByte⟩

/-- The paramsSerializer of the search request, as written in the source:
iterate over the keys in order, push one key=value part per array element
and one key=encodeURIComponent(value) part per scalar, then join the parts
with the ampersand separator. -/
def serializeParams (params : List (String × ParamValue)) : String :=
  String.intercalate "&"
    (params.foldl
      (fun parts kv =>
        match kv.2 with
        | .arr vs => parts ++ vs.map (fun v => kv.1 ++ "=" ++ v)
        | .scalar v => parts ++ [kv.1 ++ "=" ++ encodeURIComponent v])
      [])

/-- The serializer as the specification describes it: each array-valued
parameter becomes one repeated key=value pair per element, with no bracket
suffix on the key and no URI-encoding of the element; each scalar becomes
a single key=encodedValue pair; the pairs are joined with the ampersand
separator. -/
def serializeParamsSpec (params : List (String × ParamValue)) : String :=
  String.intercalate "&"
    (params.flatMap fun kv =>
      match kv.2 with
      | .arr vs => vs.map (fun v => kv.1 ++ "=" ++ v)
      | .scalar v => [kv.1 ++ "=" ++ encodeURIComponent v])

/-- The date comparator the specification describes for date_asc,
modelled from the spec words: compare parsed publish timestamps, treating
a missing or invalid date as epoch 0. -/
def specDateCompareAsc (a b : SearchResult) : Int :=
  (dateValue a).getD 0 - (dateValue b).getD 0

/-- Replace an absent seeders or size field by an explicit 0 (used to state
that the comparators treat an absent field exactly as 0). -/
def fillNums (r : SearchResult) : SearchResult :=
  { r with seeders := some (r.seeders.getD 0), size := some (r.size.getD 0) }

/-- Replace the publishDate field. -/
def withDate (r : SearchResult) (d : Option (Option Int)) : SearchResult :=
  { r with publishDate := d }

/-- A bare torrent result with only a title and a publishDate. -/
def mkDated (t : String) (d : Option (Option Int)) : SearchResult :=
  ⟨t, "", none, none, none, "torrent", d, none, none⟩

/-- Concrete two-result sequence from the specification's filter scenario. -/
def demoResults : List SearchResult :=
  [⟨"Ubuntu 22.04", "NZBGeek", some 1000, some 5, none, "torrent", none, none, none⟩,
    ⟨"Debian 12", "Rarbg", none, none, none, "torrent", none, none, none⟩]

/-- Concrete sequence from the specification's seeders_desc scenario:
titles A (5 seeders), B (null seeders), C (20 seeders). -/
def seedDemo : List SearchResult :=
  [⟨"A", "", none, some 5, none, "torrent", none, none, none⟩,
    ⟨"B", "", none, none, none, "torrent", none, none, none⟩,
    ⟨"C", "", none, some 20, none, "torrent", none, none, none⟩]

/-- A sequence whose date_asc sort output is not ordered by the date
comparator (two of the results carry an unparseable publishDate). -/
def cexUnsorted : List SearchResult :=
  [mkDated "a" (some (some 1)), mkDated "b" (some none),
    mkDated "c" (some none), mkDated "d" (some (some 0))]

/-- A result whose publishDate string does not parse (an Invalid Date). -/
def invalidDateResult : SearchResult := mkDated "Invalid.Date.Release" (some none)

/-- A result whose publishDate parses to timestamp 1000. -/
def validDateResult : SearchResult := mkDated "Valid.Date.Release" (some (some 1000))

/-! Auxiliary lemmas about the string primitives. -/

theorem startsWithChars_iff : ∀ (l n : List Char),
    startsWithChars l n = true ↔ ∃ t, l = n ++ t
  | l, [] => by
    constructor
    · intro _
      exact ⟨l, rfl⟩
    · intro _
      cases l <;> rfl
  | [], _ :: _ => by simp [startsWithChars]
  | c :: cs, d :: ds => by
    rw [startsWithChars, Bool.and_eq_true, beq_iff_eq, startsWithChars_iff cs ds]
    constructor
    · rintro ⟨rfl, t, rfl⟩
      exact ⟨t, rfl⟩
    · rintro ⟨t, ht⟩
      rw [List.cons_append] at ht
      obtain ⟨rfl, rfl⟩ := List.cons.inj ht
      exact ⟨rfl, t, rfl⟩

theorem includesChars_iff : ∀ (l n : List Char),
    includesChars l n = true ↔ ∃ u v, l = u ++ n ++ v
  | l, [] => by
    constructor
    · intro _
      exact ⟨[], l, rfl⟩
    · intro _
      cases l <;> rfl
  | [], d :: ds => by simp [includesChars]
  | c :: cs, d :: ds => by
    rw [includesChars, Bool.or_eq_true, startsWithChars_iff (c :: cs) (d :: ds),
      includesChars_iff cs (d :: ds)]
    constructor
    · rintro (⟨t, ht⟩ | ⟨u, v, hv⟩)
      · exact ⟨[], t, by simpa using ht⟩
      · exact ⟨c :: u, v, by simp [hv]⟩
    · rintro ⟨u, v, h⟩
      cases u with
      | nil =>
        exact Or.inl ⟨v, by simpa using h⟩
      | cons x us =>
        refine Or.inr ⟨us, v, ?_⟩
        simp only [List.cons_append] at h
        exact (List.cons.inj h).2

theorem jsIncludes_iff (hay needle : String) :
    jsIncludes hay needle = true ↔ ∃ u v, hay.data = u ++ needle.data ++ v :=
  includesChars_iff hay.data needle.data

theorem lexCmpInt_neg : ∀ a b : List Char, lexCmpInt b a = -lexCmpInt a b
  | [], [] => rfl
  | [], _ :: _ => rfl
  | _ :: _, [] => rfl
  | a :: as, b :: bs => by
    rw [lexCmpInt, lexCmpInt]
    rcases Nat.lt_trichotomy a.toNat b.toNat with h | h | h
    · rw [if_pos h, if_neg (Nat.lt_asymm h), if_pos h]
      rfl
    · rw [if_neg (by omega : ¬ b.toNat < a.toNat), if_neg (by omega : ¬ a.toNat < b.toNat),
        if_neg (by omega : ¬ a.toNat < b.toNat), if_neg (by omega : ¬ b.toNat < a.toNat)]
      exact lexCmpInt_neg as bs
    · rw [if_neg (Nat.lt_asymm h), if_pos h, if_neg (Nat.lt_asymm h), if_pos h]

theorem lexCmpInt_trans : ∀ a b c : List Char,
    lexCmpInt a b ≤ 0 → lexCmpInt b c ≤ 0 → lexCmpInt a c ≤ 0
  | [], _, [] => fun _ _ => by rw [lexCmpInt]
  | [], _, _ :: _ => fun _ _ => by rw [lexCmpInt]; omega
  | _ :: _, [], _ => fun h _ => by rw [lexCmpInt] at h; omega
  | _ :: _, _ :: _, [] => fun _ h => by rw [lexCmpInt] at h; omega
  | x :: xs, y :: ys, z :: zs => fun h1 h2 => by
    rw [lexCmpInt] at h1 h2 ⊢
    rcases Nat.lt_trichotomy x.toNat y.toNat with hxy | hxy | hxy <;>
      rcases Nat.lt_trichotomy y.toNat z.toNat with hyz | hyz | hyz
    · rw [if_pos (Nat.lt_trans hxy hyz)]; omega
    · rw [if_pos (by omega : x.toNat < z.toNat)]; omega
    · rw [if_neg (Nat.lt_asymm hyz), if_pos hyz] at h2; omega
    · rw [if_pos (by omega : x.toNat < z.toNat)]; omega
    · rw [if_neg (by omega : ¬ x.toNat < y.toNat),
        if_neg (by omega : ¬ y.toNat < x.toNat)] at h1
      rw [if_neg (by omega : ¬ y.toNat < z.toNat),
        if_neg (by omega : ¬ z.toNat < y.toNat)] at h2
      rw [if_neg (by omega : ¬ x.toNat < z.toNat),
        if_neg (by omega : ¬ z.toNat < x.toNat)]
      exact lexCmpInt_trans xs ys zs h1 h2
    · rw [if_neg (Nat.lt_asymm hyz), if_pos hyz] at h2; omega
    · rw [if_neg (Nat.lt_asymm hxy), if_pos hxy] at h1; omega
    · rw [if_neg (Nat.lt_asymm hxy), if_pos hxy] at h1; omega
    · rw [if_neg (Nat.lt_asymm hxy), if_pos hxy] at h1; omega

theorem protocolLe_iff (idx : List Indexer) (a b : SearchResult) :
    sortCompare idx .protocol a b ≤ 0 ↔
      (a.protocol = "usenet" ∨ b.protocol ≠ "usenet") := by
  by_cases ha : a.protocol = "usenet" <;> by_cases hb : b.protocol = "usenet" <;>
    simp [sortCompare, ha, hb]

theorem sortLe_trans_nondate (idx : List Indexer) (k : SortKey)
    (hk : k ≠ SortKey.date_asc ∧ k ≠ SortKey.date_desc) :
    ∀ a b c, sortLe idx k a b = true → sortLe idx k b c = true →
      sortLe idx k a c = true := by
  intro a b c h1 h2
  cases k with
  | title_asc =>
    simp only [sortLe, sortCompare, localeCompare, decide_eq_true_eq] at h1 h2 ⊢
    exact lexCmpInt_trans _ _ _ h1 h2
  | title_desc =>
    simp only [sortLe, sortCompare, localeCompare, decide_eq_true_eq] at h1 h2 ⊢
    exact lexCmpInt_trans _ _ _ h2 h1
  | seeders_desc =>
    simp only [sortLe, sortCompare, decide_eq_true_eq] at h1 h2 ⊢; omega
  | seeders_asc =>
    simp only [sortLe, sortCompare, decide_eq_true_eq] at h1 h2 ⊢; omega
  | size_desc =>
    simp only [sortLe, sortCompare, decide_eq_true_eq] at h1 h2 ⊢; omega
  | size_asc =>
    simp only [sortLe, sortCompare, decide_eq_true_eq] at h1 h2 ⊢; omega
  | date_desc => exact absurd rfl hk.2
  | date_asc => exact absurd rfl hk.1
  | protocol =>
    simp only [sortLe, decide_eq_true_eq, protocolLe_iff] at h1 h2 ⊢
    tauto
  | indexer_priority_desc =>
    simp only [sortLe, sortCompare, decide_eq_true_eq] at h1 h2 ⊢; omega
  | indexer_priority_asc =>
    simp only [sortLe, sortCompare, decide_eq_true_eq] at h1 h2 ⊢; omega

theorem sortLe_total_nondate (idx : List Indexer) (k : SortKey)
    (hk : k ≠ SortKey.date_asc ∧ k ≠ SortKey.date_desc) :
    ∀ a b, (sortLe idx k a b || sortLe idx k b a) = true := by
  intro a b
  rw [Bool.or_eq_true]
  cases k with
  | title_asc =>
    simp only [sortLe, sortCompare, localeCompare, decide_eq_true_eq]
    have h := lexCmpInt_neg a.title.data b.title.data
    omega
  | title_desc =>
    simp only [sortLe, sortCompare, localeCompare, decide_eq_true_eq]
    have h := lexCmpInt_neg a.title.data b.title.data
    omega
  | seeders_desc => simp only [sortLe, sortCompare, decide_eq_true_eq]; omega
  | seeders_asc => simp only [sortLe, sortCompare, decide_eq_true_eq]; omega
  | size_desc => simp only [sortLe, sortCompare, decide_eq_true_eq]; omega
  | size_asc => simp only [sortLe, sortCompare, decide_eq_true_eq]; omega
  | date_desc => exact absurd rfl hk.2
  | date_asc => exact absurd rfl hk.1
  | protocol =>
    simp only [sortLe, decide_eq_true_eq, protocolLe_iff]
    tauto
  | indexer_priority_desc => simp only [sortLe, sortCompare, decide_eq_true_eq]; omega
  | indexer_priority_asc => simp only [sortLe, sortCompare, decide_eq_true_eq]; omega

theorem dateValue_eq_some (r : SearchResult)
    (h : r.publishDate ≠ some (none : Option Int)) :
    dateValue r = some ((dateValue r).getD 0) := by
  rcases hp : r.publishDate with _ | op
  · simp [dateValue, hp]
  · rcases op with _ | t
    · exact absurd hp h
    · simp [dateValue, hp]

theorem sortLe_date_asc_eq (idx : List Indexer) (a b : SearchResult)
    (ha : a.publishDate ≠ some (none : Option Int))
    (hb : b.publishDate ≠ some (none : Option Int)) :
    sortLe idx .date_asc a b =
      decide ((dateValue a).getD 0 ≤ (dateValue b).getD 0) := by
  obtain ⟨ta, hta⟩ : ∃ t, dateValue a = some t := ⟨_, dateValue_eq_some a ha⟩
  obtain ⟨tb, htb⟩ : ∃ t, dateValue b = some t := ⟨_, dateValue_eq_some b hb⟩
  simp only [sortLe, sortCompare, hta, htb, Option.getD_some]
  rw [decide_eq_decide]
  omega

theorem sortLe_date_desc_eq (idx : List Indexer) (a b : SearchResult)
    (ha : a.publishDate ≠ some (none : Option Int))
    (hb : b.publishDate ≠ some (none : Option Int)) :
    sortLe idx .date_desc a b =
      decide ((dateValue b).getD 0 ≤ (dateValue a).getD 0) := by
  obtain ⟨ta, hta⟩ : ∃ t, dateValue a = some t := ⟨_, dateValue_eq_some a ha⟩
  obtain ⟨tb, htb⟩ : ∃ t, dateValue b = some t := ⟨_, dateValue_eq_some b hb⟩
  simp only [sortLe, sortCompare, hta, htb, Option.getD_some]
  rw [decide_eq_decide]
  omega

theorem sortResults_perm (idx : List Indexer) (k : SortKey) (rs : List SearchResult) :
    (sortResults idx k rs).Perm rs :=
  List.mergeSort_perm rs _

theorem sortResults_pairwiseLe (idx : List Indexer) (k : SortKey) (rs : List SearchResult)
    (hd : (k = SortKey.date_asc ∨ k = SortKey.date_desc) →
      ∀ r ∈ rs, r.publishDate ≠ some (none : Option Int)) :
    (sortResults idx k rs).Pairwise fun a b => sortLe idx k a b = true := by
  by_cases hk : k = SortKey.date_asc ∨ k = SortKey.date_desc
  · have hv := hd hk
    rcases hk with rfl | rfl
    · have hagree : ∀ a ∈ rs, ∀ b ∈ rs,
          sortLe idx .date_asc a b =
            (fun x y : SearchResult =>
              decide ((dateValue x).getD 0 ≤ (dateValue y).getD 0)) a b := by
        intro a haa b hbb
        exact sortLe_date_asc_eq idx a b (hv a haa) (hv b hbb)
      have hmap := List.map_mergeSort (f := fun r : SearchResult => r)
        (s := fun x y : SearchResult =>
          decide ((dateValue x).getD 0 ≤ (dateValue y).getD 0)) hagree
      simp only [List.map_id'] at hmap
      have hsorted := @List.sorted_mergeSort SearchResult
        (fun x y : SearchResult =>
          decide ((dateValue x).getD 0 ≤ (dateValue y).getD 0))
        (fun a b c h1 h2 => by
          simp only [decide_eq_true_eq] at h1 h2 ⊢; omega)
        (fun a b => by
          simp only [Bool.or_eq_true, decide_eq_true_eq]; omega) rs
      rw [sortResults, hmap]
      refine hsorted.imp_of_mem ?_
      intro a b haa hbb hle
      have hamem : a ∈ rs := ((List.mergeSort_perm rs _).mem_iff).mp haa
      have hbmem : b ∈ rs := ((List.mergeSort_perm rs _).mem_iff).mp hbb
      rw [sortLe_date_asc_eq idx a b (hv a hamem) (hv b hbmem)]
      exact hle
    · have hagree : ∀ a ∈ rs, ∀ b ∈ rs,
          sortLe idx .date_desc a b =
            (fun x y : SearchResult =>
              decide ((dateValue y).getD 0 ≤ (dateValue x).getD 0)) a b := by
        intro a haa b hbb
        exact sortLe_date_desc_eq idx a b (hv a haa) (hv b hbb)
      have hmap := List.map_mergeSort (f := fun r : SearchResult => r)
        (s := fun x y : SearchResult =>
          decide ((dateValue y).getD 0 ≤ (dateValue x).getD 0)) hagree
      simp only [List.map_id'] at hmap
      have hsorted := @List.sorted_mergeSort SearchResult
        (fun x y : SearchResult =>
          decide ((dateValue y).getD 0 ≤ (dateValue x).getD 0))
        (fun a b c h1 h2 => by
          simp only [decide_eq_true_eq] at h1 h2 ⊢; omega)
        (fun a b => by
          simp only [Bool.or_eq_true, decide_eq_true_eq]; omega) rs
      rw [sortResults, hmap]
      refine hsorted.imp_of_mem ?_
      intro a b haa hbb hle
      have hamem : a ∈ rs := ((List.mergeSort_perm rs _).mem_iff).mp haa
      have hbmem : b ∈ rs := ((List.mergeSort_perm rs _).mem_iff).mp hbb
      rw [sortLe_date_desc_eq idx a b (hv a hamem) (hv b hbmem)]
      exact hle
  · push_neg at hk
    rw [sortResults]
    exact List.sorted_mergeSort (sortLe_trans_nondate idx k hk)
      (sortLe_total_nondate idx k hk) rs

theorem resultsStep_inv (idx : List Indexer) (rs : List SearchResult) (s : ResultsState)
    (h1 : s.results = rs) (h2 : s.currentResults.Subperm rs)
    (h3 : ∀ e ∈ s.navStack, e = rs) (op : ResultsOp) :
    (resultsStep idx s op).results = rs ∧
    ((resultsStep idx s op).currentResults).Subperm rs ∧
    ∀ e ∈ (resultsStep idx s op).navStack, e = rs := by
  cases op with
  | sort k =>
    exact ⟨h1, ((sortResults_perm idx k s.currentResults).subperm).trans h2, h3⟩
  | search q =>
    simp only [resultsStep]
    split
    · split
      · exact ⟨h1, h2, h3⟩
      · refine ⟨h1, ?_, h3⟩
        show (filterResults s.results q).Subperm rs
        rw [h1, filterResults]
        exact (List.filter_sublist rs).subperm
    · exact ⟨h1, h2, h3⟩
  | showAll =>
    refine ⟨h1, ?_, h3⟩
    show (s.results).Subperm rs
    rw [h1]
  | selectItem =>
    refine ⟨h1, h2, ?_⟩
    intro e he
    rcases List.mem_cons.mp he with he | he
    · rw [he, h1]
    · exact h3 e he
  | backToMain =>
    refine ⟨h1, h2, ?_⟩
    intro e he
    simp only [resultsStep, List.not_mem_nil] at he

theorem foldl_resultsStep_inv (idx : List Indexer) (rs : List SearchResult) :
    ∀ (ops : List ResultsOp) (s : ResultsState),
      s.results = rs → s.currentResults.Subperm rs → (∀ e ∈ s.navStack, e = rs) →
      (ops.foldl (resultsStep idx) s).results = rs ∧
      ((ops.foldl (resultsStep idx) s).currentResults).Subperm rs ∧
      ∀ e ∈ (ops.foldl (resultsStep idx) s).navStack, e = rs
  | [], _ => fun h1 h2 h3 => ⟨h1, h2, h3⟩
  | op :: ops, s => fun h1 h2 h3 => by
    obtain ⟨g1, g2, g3⟩ := resultsStep_inv idx rs s h1 h2 h3 op
    exact foldl_resultsStep_inv idx rs ops (resultsStep idx s op) g1 g2 g3

theorem foldl_append_flatMap {α β : Type} (f : α → List β) :
    ∀ (l : List α) (init : List β),
      l.foldl (fun acc x => acc ++ f x) init = init ++ l.flatMap f
  | [], init => by simp
  | x :: xs, init => by
    rw [List.foldl_cons, foldl_append_flatMap f xs, List.flatMap_cons, List.append_assoc]

theorem floorLog1024Aux_spec : ∀ (fuel n : Nat), 1 ≤ n → n ≤ fuel →
    1024 ^ floorLog1024Aux fuel n ≤ n ∧ n < 1024 ^ (floorLog1024Aux fuel n + 1)
  | 0, _ => fun h1 h2 => absurd (h1.trans h2) (by norm_num)
  | fuel + 1, n => fun h1 h2 => by
    rw [floorLog1024Aux]
    by_cases h : n < 1024
    · rw [if_pos h]
      constructor
      · simpa using h1
      · simpa using h
    · rw [if_neg h]
      have hn : 1024 ≤ n := by omega
      have hd1 : 1 ≤ n / 1024 := (Nat.one_le_div_iff (by norm_num)).mpr hn
      have hdlt : n / 1024 < n := Nat.div_lt_self (by omega) (by norm_num)
      have hdf : n / 1024 ≤ fuel := by omega
      obtain ⟨hlo, hhi⟩ := floorLog1024Aux_spec fuel (n / 1024) hd1 hdf
      have hmod := Nat.div_add_mod n 1024
      have hmlt : n % 1024 < 1024 := Nat.mod_lt _ (by norm_num)
      constructor
      · rw [Nat.pow_succ]
        calc 1024 ^ floorLog1024Aux fuel (n / 1024) * 1024 ≤ (n / 1024) * 1024 :=
              Nat.mul_le_mul_right _ hlo
          _ ≤ n := by omega
      · rw [Nat.pow_succ]
        calc n < (n / 1024 + 1) * 1024 := by omega
          _ ≤ 1024 ^ (floorLog1024Aux fuel (n / 1024) + 1) * 1024 :=
              Nat.mul_le_mul_right _ (by omega)

theorem floorLog1024_spec (n : Nat) (h : 1 ≤ n) :
    1024 ^ floorLog1024 n ≤ n ∧ n < 1024 ^ (floorLog1024 n + 1) :=
  floorLog1024Aux_spec n n h (Nat.le_refl n)

theorem resultsStep_search_eq (idx : List Indexer) (s : ResultsState) (q : String)
    (hq : jsTrim q ≠ "") (hne : filterResults s.results q ≠ []) :
    (resultsStep idx s (.search q)).currentResults = filterResults s.results q := by
  simp [resultsStep, hq, hne]

/-! The claims. -/

/-- C1: for every results-view state and every non-blank query, the
search-within-results operation installs exactly the elements of the
original full sequence whose case-folded title contains the case-folded
query as a contiguous substring, in their original order (a sublist of the
full sequence); and the installed sequence depends only on the full
sequence, never on the currently displayed one, so a second filter while a
filter is active is computed over the full sequence. -/
theorem search_within_results_uses_full_sequence (idx : List Indexer)
    (s : ResultsState) (q : String)
    (hq : jsTrim q ≠ "")
    (hne : filterResults s.results q ≠ []) :
    ((resultsStep idx s (.search q)).currentResults).Sublist s.results ∧
    (∀ r, r ∈ (resultsStep idx s (.search q)).currentResults ↔
      r ∈ s.results ∧
        ∃ u v, (jsToLowerCase r.title).data = u ++ (jsToLowerCase q).data ++ v) ∧
    (∀ s2 : ResultsState, s2.results = s.results →
      (resultsStep idx s2 (.search q)).currentResults =
        (resultsStep idx s (.search q)).currentResults) := by
  have hstep := resultsStep_search_eq idx s q hq hne
  refine ⟨?_, ?_, ?_⟩
  · rw [hstep, filterResults]
    exact List.filter_sublist s.results
  · intro r
    rw [hstep]
    simp only [filterResults, List.mem_filter, jsIncludes_iff]
  · intro s2 h2
    have hne2 : filterResults s2.results q ≠ [] := by rw [h2]; exact hne
    rw [resultsStep_search_eq idx s2 q hq hne2, hstep, h2]

/-- Witness for C1: the specification's scenario, filtering the two-result
sequence with the query ubu. -/
theorem search_within_results_uses_full_sequence_witness :
    (jsTrim "ubu" ≠ "" ∧ filterResults (initResultsState demoResults).results "ubu" ≠ []) ∧
    (((resultsStep [] (initResultsState demoResults) (.search "ubu")).currentResults).Sublist
        (initResultsState demoResults).results ∧
      (∀ r, r ∈ (resultsStep [] (initResultsState demoResults) (.search "ubu")).currentResults ↔
        r ∈ (initResultsState demoResults).results ∧
          ∃ u v, (jsToLowerCase r.title).data = u ++ (jsToLowerCase "ubu").data ++ v) ∧
      (∀ s2 : ResultsState, s2.results = (initResultsState demoResults).results →
        (resultsStep [] s2 (.search "ubu")).currentResults =
          (resultsStep [] (initResultsState demoResults) (.search "ubu")).currentResults)) :=
  ⟨⟨by decide, by decide⟩,
    search_within_results_uses_full_sequence [] (initResultsState demoResults) "ubu"
      (by decide) (by decide)⟩

unseal List.merge List.mergeSort in
/-- C2 counterexample: with an unparseable publishDate in the sequence the
date comparator is inconsistent (its NaN rows compare equal to everything),
and the date_asc sort of cexUnsorted is not ordered by the comparator: the
timestamp-1 result ends up before the timestamp-0 result. -/
theorem sort_results_not_ordered_cex :
    ¬ (sortResults [] .date_asc cexUnsorted).Pairwise
        (fun a b => sortCompare [] .date_asc a b ≤ 0) := by decide

/-- C2 (amended): for every key and every sequence — unconditionally — the
sort returns a permutation of its input, and (the model being purely
functional) never mutates the input, which the source guarantees by sorting
a spread copy; the output is in addition ordered by the key's comparator
for every key, provided for the two date keys that no result carries a
present but unparseable publishDate. -/
theorem sort_results_perm_and_ordered (idx : List Indexer) (k : SortKey)
    (rs : List SearchResult) :
    (sortResults idx k rs).Perm rs ∧
    (((k = SortKey.date_asc ∨ k = SortKey.date_desc) →
        ∀ r ∈ rs, r.publishDate ≠ some (none : Option Int)) →
      (sortResults idx k rs).Pairwise fun a b => sortCompare idx k a b ≤ 0) := by
  refine ⟨sortResults_perm idx k rs, fun hd => ?_⟩
  refine (sortResults_pairwiseLe idx k rs hd).imp ?_
  intro a b h
  simpa only [sortLe, decide_eq_true_eq] using h

/-- Witness for C2: the specification's seeders_desc scenario (A with 5
seeders, B with null seeders, C with 20 seeders); the ordering side
condition is discharged at this concrete key and sequence. -/
theorem sort_results_perm_and_ordered_witness :
    ((SortKey.seeders_desc = SortKey.date_asc ∨ SortKey.seeders_desc = SortKey.date_desc) →
      ∀ r ∈ seedDemo, r.publishDate ≠ some (none : Option Int)) ∧
    ((sortResults [] .seeders_desc seedDemo).Perm seedDemo ∧
      (sortResults [] .seeders_desc seedDemo).Pairwise
        (fun a b => sortCompare [] .seeders_desc a b ≤ 0)) :=
  ⟨by decide,
    (sort_results_perm_and_ordered [] .seeders_desc seedDemo).1,
    (sort_results_perm_and_ordered [] .seeders_desc seedDemo).2 (by decide)⟩

/-- C3: for the four seeders/size keys the comparator reads the numeric
fields through (x || 0), so every result with an absent field compares
exactly like the same result with an explicit 0 — the comparator values
agree pairwise, and whole sorts agree elementwise.  The comparison is a
total function, so it can never throw, and it is deterministic. -/
theorem missing_seeders_size_sort_as_zero (idx : List Indexer) (k : SortKey)
    (hk : k = SortKey.seeders_asc ∨ k = SortKey.seeders_desc ∨
      k = SortKey.size_asc ∨ k = SortKey.size_desc) :
    (∀ a b, sortCompare idx k a b = sortCompare idx k (fillNums a) (fillNums b)) ∧
    (∀ rs, sortResults idx k (rs.map fillNums) = (sortResults idx k rs).map fillNums) := by
  have hcmp : ∀ a b, sortCompare idx k a b = sortCompare idx k (fillNums a) (fillNums b) := by
    intro a b
    rcases hk with rfl | rfl | rfl | rfl <;> simp [sortCompare, fillNums]
  refine ⟨hcmp, ?_⟩
  intro rs
  have hagree : ∀ a ∈ rs, ∀ b ∈ rs,
      sortLe idx k a b = sortLe idx k (fillNums a) (fillNums b) := by
    intro a _ b _
    simp only [sortLe, hcmp a b]
  have hmap := List.map_mergeSort (f := fillNums) (s := sortLe idx k) hagree
  rw [sortResults, sortResults]
  exact hmap.symm

/-- Witness for C3 at the seeders_desc key. -/
theorem missing_seeders_size_sort_as_zero_witness :
    (SortKey.seeders_desc = SortKey.seeders_asc ∨ SortKey.seeders_desc = SortKey.seeders_desc ∨
      SortKey.seeders_desc = SortKey.size_asc ∨ SortKey.seeders_desc = SortKey.size_desc) ∧
    ((∀ a b, sortCompare [] .seeders_desc a b =
        sortCompare [] .seeders_desc (fillNums a) (fillNums b)) ∧
      (∀ rs, sortResults [] .seeders_desc (rs.map fillNums) =
        (sortResults [] .seeders_desc rs).map fillNums)) :=
  ⟨by decide, missing_seeders_size_sort_as_zero [] .seeders_desc (by decide)⟩

unseal List.merge List.mergeSort in
/-- C5 counterexample: a result with a present but unparseable publishDate
is not compared as if its timestamp were epoch 0: the code's comparator
returns 0 against a timestamp-1000 result (the spec-modelled epoch-0
comparator returns -1000), so the date_asc sort leaves the invalid-dated
result in place, whereas the same result with an explicit epoch-0
timestamp is moved in front. -/
theorem date_invalid_not_epoch_cex :
    sortCompare [] .date_asc invalidDateResult validDateResult = 0 ∧
    specDateCompareAsc invalidDateResult validDateResult = -1000 ∧
    sortResults [] .date_asc [validDateResult, invalidDateResult] =
      [validDateResult, invalidDateResult] ∧
    sortResults [] .date_asc [validDateResult, withDate invalidDateResult (some (some 0))] =
      [withDate invalidDateResult (some (some 0)), validDateResult] :=
  ⟨by decide, by decide, by decide, by decide⟩

/-- C5 (amended): the date keys compare parsed publish timestamps; a
missing (falsy) publishDate is compared exactly as an explicit epoch-0
timestamp, but a present, unparseable publishDate makes the comparator
return NaN, which the sort treats as 0, so such a result compares as equal
to every result. -/
theorem date_sort_null_and_invalid_semantics (idx : List Indexer) (r b : SearchResult) :
    (sortCompare idx .date_asc (withDate r none) b =
        sortCompare idx .date_asc (withDate r (some (some 0))) b ∧
      sortCompare idx .date_asc b (withDate r none) =
        sortCompare idx .date_asc b (withDate r (some (some 0))) ∧
      sortCompare idx .date_desc (withDate r none) b =
        sortCompare idx .date_desc (withDate r (some (some 0))) b ∧
      sortCompare idx .date_desc b (withDate r none) =
        sortCompare idx .date_desc b (withDate r (some (some 0)))) ∧
    (sortCompare idx .date_asc (withDate r (some none)) b = 0 ∧
      sortCompare idx .date_asc b (withDate r (some none)) = 0 ∧
      sortCompare idx .date_desc (withDate r (some none)) b = 0 ∧
      sortCompare idx .date_desc b (withDate r (some none)) = 0) := by
  have h0 : dateValue (withDate r none) = some 0 := rfl
  have h00 : dateValue (withDate r (some (some 0))) = some 0 := rfl
  have hinv : dateValue (withDate r (some none)) = (none : Option Int) := rfl
  refine ⟨⟨?_, ?_, ?_, ?_⟩, ?_, ?_, ?_, ?_⟩ <;>
    simp only [sortCompare, h0, h00, hinv] <;> cases dateValue b <;> rfl

/-- C6: over every sequence of results-view operations (sort, filter,
show-all, item selection, back-to-main), the full sequence is retained
unmodified, every navigation-stack snapshot equals it, and the displayed
sequence is always a permutation of a subsequence of it. -/
theorem results_view_invariant (idx : List Indexer) (rs : List SearchResult)
    (ops : List ResultsOp) :
    (ops.foldl (resultsStep idx) (initResultsState rs)).results = rs ∧
    ((ops.foldl (resultsStep idx) (initResultsState rs)).currentResults).Subperm rs ∧
    ∀ e ∈ (ops.foldl (resultsStep idx) (initResultsState rs)).navStack, e = rs :=
  foldl_resultsStep_inv idx rs ops (initResultsState rs) rfl (List.Subperm.refl rs)
    (fun e he => absurd he (List.not_mem_nil e))

/-- C7: a non-blank filter whose match set over the full sequence is empty
leaves the displayed sequence, the isFiltered flag and the retained full
sequence unchanged — the empty match set is never installed, the loop
prints a message and re-prompts, and the model is total (no crash). -/
theorem empty_filter_preserves_view (idx : List Indexer) (s : ResultsState) (q : String)
    (hq : jsTrim q ≠ "") (h : filterResults s.results q = []) :
    (resultsStep idx s (.search q)).currentResults = s.currentResults ∧
    (resultsStep idx s (.search q)).isFiltered = s.isFiltered ∧
    (resultsStep idx s (.search q)).results = s.results := by
  simp [resultsStep, hq, h]

/-- Witness for C7: the query xyz matches nothing in the two-result demo
sequence. -/
theorem empty_filter_preserves_view_witness :
    (jsTrim "xyz" ≠ "" ∧ filterResults (initResultsState demoResults).results "xyz" = []) ∧
    ((resultsStep [] (initResultsState demoResults) (.search "xyz")).currentResults =
        (initResultsState demoResults).currentResults ∧
      (resultsStep [] (initResultsState demoResults) (.search "xyz")).isFiltered =
        (initResultsState demoResults).isFiltered ∧
      (resultsStep [] (initResultsState demoResults) (.search "xyz")).results =
        (initResultsState demoResults).results) :=
  ⟨⟨by decide, by decide⟩,
    empty_filter_preserves_view [] (initResultsState demoResults) "xyz"
      (by decide) (by decide)⟩

/-- C8: loading the configuration with a missing file, or with a file the
JSON parser rejects, returns the default config object (empty connection
fields, constructor-default theme and settings) and leaves the in-memory
defaults untouched; the load is modelled as a total function because the
try/catch in the source lets no exception escape. -/
theorem loadConfig_defaults_on_missing_or_malformed :
    loadConfig defaultTheme defaultSettings ConfigFile.missing =
      ⟨ConfigReturn.defaultObj ⟨"", "", "", defaultTheme, defaultSettings⟩,
        defaultTheme, defaultSettings⟩ ∧
    loadConfig defaultTheme defaultSettings ConfigFile.malformed =
      ⟨ConfigReturn.defaultObj ⟨"", "", "", defaultTheme, defaultSettings⟩,
        defaultTheme, defaultSettings⟩ ∧
    (loadConfig defaultTheme defaultSettings ConfigFile.missing).settings = defaultSettings ∧
    (loadConfig defaultTheme defaultSettings ConfigFile.malformed).settings = defaultSettings :=
  ⟨rfl, rfl, rfl, rfl⟩

/-- C9: the hand-written paramsSerializer agrees with the specification's
description of it — each array-valued parameter becomes one repeated
key=value pair per element with no bracket suffix and no URI-encoding of
the element, each scalar becomes a single key=encodedValue pair, and the
pairs are joined with the ampersand separator. -/
theorem paramsSerializer_matches_spec (params : List (String × ParamValue)) :
    serializeParams params = serializeParamsSpec params := by
  rw [serializeParams, serializeParamsSpec]
  have hfun : (fun (parts : List String) (kv : String × ParamValue) =>
      match kv.2 with
      | ParamValue.arr vs => parts ++ vs.map (fun v => kv.1 ++ "=" ++ v)
      | ParamValue.scalar v => parts ++ [kv.1 ++ "=" ++ encodeURIComponent v]) =
      fun (parts : List String) (kv : String × ParamValue) => parts ++
        (match kv.2 with
        | ParamValue.arr vs => vs.map (fun v => kv.1 ++ "=" ++ v)
        | ParamValue.scalar v => [kv.1 ++ "=" ++ encodeURIComponent v]) := by
    funext parts kv
    rcases kv with ⟨key, val⟩
    cases val <;> rfl
  rw [hfun, foldl_append_flatMap, List.nil_append]

/-- C10 counterexample: at 1024^5 bytes (1 PiB) the unit index is 5, past
the end of the five-entry unit table, so the rendered unit is the literal
string undefined, which is not a unit of the table. -/
theorem formatSize_unit_overflow_cex :
    formatSize (some (1024 ^ 5)) = "1.00 undefined" ∧ "undefined" ∉ sizesArr :=
  ⟨by decide, by decide⟩

/-- C10 (amended): a falsy size — absent, null, or exactly 0 bytes —
renders as Unknown, so at the display boundary a zero-byte result is
indistinguishable from a result without a size; a positive size below
1024^5 - 3 is rendered by the two-decimal formatter at scale 1024^i, where
i is the exact floor base-1024 logarithm (so 1024^i ≤ b < 1024^(i+1),
i ≤ 4) with the i-th entry of the five-unit table as its unit; from
1024^5 - 3 — where the IEEE double quotient log(b)/log(1024) already
rounds to exactly 5.0 — through 1024^5, the unit index is 5, past the unit
table, and the literal string undefined is rendered as the unit. -/
theorem formatSize_amended :
    formatSize none = "Unknown" ∧ formatSize (some 0) = "Unknown" ∧
    (∀ b : Nat, 0 < b → b < 1024 ^ 5 - 3 →
      1024 ^ floorLog1024 b ≤ b ∧ b < 1024 ^ (floorLog1024 b + 1) ∧
      floorLog1024 b < 5 ∧
      formatSize (some b) =
        toFixed2 b (1024 ^ floorLog1024 b) ++ " " ++
          sizesArr.getD (floorLog1024 b) "undefined" ∧
      sizesArr.getD (floorLog1024 b) "undefined" ∈ sizesArr) ∧
    (∀ b : Nat, 1024 ^ 5 - 3 ≤ b → b ≤ 1024 ^ 5 →
      formatSize (some b) = toFixed2 b (1024 ^ 5) ++ " " ++ "undefined" ∧
      "undefined" ∉ sizesArr) := by
  refine ⟨rfl, rfl, ?_, ?_⟩
  · intro b hb hlt
    obtain ⟨hlo, hhi⟩ := floorLog1024_spec b hb
    have hi5 : floorLog1024 b < 5 := by
      by_contra hge
      push_neg at hge
      have hmono : (1024:Nat) ^ 5 ≤ 1024 ^ floorLog1024 b :=
        Nat.pow_le_pow_right (by norm_num) hge
      omega
    refine ⟨hlo, hhi, hi5, ?_, ?_⟩
    · simp only [formatSize, mathLogIndex]
      rw [if_neg (by omega : ¬ b = 0),
        if_neg (by omega : ¬ (1024 ^ 5 - 3 ≤ b ∧ b ≤ 1024 ^ 5))]
    · revert hi5
      generalize floorLog1024 b = i
      intro hi5
      interval_cases i <;> decide
  · intro b h1 h2
    refine ⟨?_, by decide⟩
    simp only [formatSize, mathLogIndex]
    rw [if_neg (by omega : ¬ b = 0),
      if_pos (⟨h1, h2⟩ : 1024 ^ 5 - 3 ≤ b ∧ b ≤ 1024 ^ 5)]
    rfl

/-- Witness for C10 at 2048 bytes (table range) and at 1024^5 - 1 bytes
(inside the boundary zone below 1024^5, where the program already renders
the undefined unit). -/
theorem formatSize_amended_witness :
    ((0:Nat) < 2048 ∧ (2048:Nat) < 1024 ^ 5 - 3) ∧
    (1024 ^ floorLog1024 2048 ≤ 2048 ∧ 2048 < 1024 ^ (floorLog1024 2048 + 1) ∧
      floorLog1024 2048 < 5 ∧
      formatSize (some 2048) =
        toFixed2 2048 (1024 ^ floorLog1024 2048) ++ " " ++
          sizesArr.getD (floorLog1024 2048) "undefined" ∧
      sizesArr.getD (floorLog1024 2048) "undefined" ∈ sizesArr) ∧
    (1024 ^ 5 - 3 ≤ 1024 ^ 5 - 1 ∧ (1024:Nat) ^ 5 - 1 ≤ 1024 ^ 5) ∧
    (formatSize (some (1024 ^ 5 - 1)) =
        toFixed2 (1024 ^ 5 - 1) (1024 ^ 5) ++ " " ++ "undefined" ∧
      "undefined" ∉ sizesArr) :=
  ⟨⟨by decide, by decide⟩,
    formatSize_amended.2.2.1 2048 (by decide) (by decide),
    ⟨by decide, by decide⟩,
    formatSize_amended.2.2.2 (1024 ^ 5 - 1) (by decide) (by decide)⟩

end Prowling
